import Mathlib

set_option maxRecDepth 16384

/-!
Verification of the accumulator-rs RSA accumulator against its specification.

The development shallowly embeds the two crates of the repository:

* crate rsa (src/rsa): a num-bigint based accumulator with insert and
  insert_mut, byte serialization, hash_to_prime, and a PoKE2-style
  membership proof over openssl BigNum;
* crate accumulator-rsa (src/accumulator-rsa): the BigInteger based
  accumulator with membership and non-membership witnesses, the generic
  Poke2Proof and the specialized MembershipProof.

Big integers are embedded as Nat (Int where the source is signed: the
Bezout coefficients of the non-membership witness).  The external
collaborators (the Blake2b hash and the Baillie-PSW probable prime check,
both external dependencies of the repository) are uninterpreted parameters
of the embedded functions; hash_to_prime, when a function abstracts it as
a whole, is likewise a parameter, since both the prover and the verifier
call the same deterministic map on the same transcript.
-/

namespace AccumulatorRs

/-- Wire constant FACTOR_SIZE = 1024 / 8 bytes (both crates). -/
def FACTOR_SIZE : Nat := 128

/-- Wire constant MEMBER_SIZE = 32 bytes (both crates). -/
def MEMBER_SIZE : Nat := 32

/-- Structural helper for toBytesBE: the fuel dominates the number of
base-256 digits, so the fuel never runs out when it starts at n. -/
def toBytesBEAux : Nat → Nat → List Nat
  | 0, _ => []
  | fuel + 1, n => if n = 0 then [] else toBytesBEAux fuel (n / 256) ++ [n % 256]

/-- Minimal big-endian byte serialization of a natural number, as the
to_bytes of the BigInteger abstraction and BigUint to_bytes_be produce
(the zero serializes to the empty byte string). -/
def toBytesBE (n : Nat) : List Nat := toBytesBEAux n n

/-- Big-endian interpretation of a byte string as a natural number
(BigUint from_bytes_be, BigInteger from bytes). -/
def fromBytesBE (l : List Nat) : Nat :=
  l.foldl (fun a b => a * 256 + b) 0

/-- The 8-byte big-endian encoding of a usize counter, as
i.to_be_bytes() in hash_to_prime. -/
def toBytes8BE (i : Nat) : List Nat :=
  [i / 256 ^ 7 % 256, i / 256 ^ 6 % 256, i / 256 ^ 5 % 256, i / 256 ^ 4 % 256,
   i / 256 ^ 3 % 256, i / 256 ^ 2 % 256, i / 256 % 256, i % 256]

/-- Modular exponentiation with a nonnegative exponent: mod_exp of the
BigInt abstraction and Field.exp of the common crate (spec section 4.1
and 4.2), BigNumRef::mod_exp, BigUint::modpow. -/
def powMod (b e n : Nat) : Nat := b ^ e % n

/-- Modular inverse.  Modelled from the spec: mod_inverse(a, n) of the
BigInt abstraction (section 4.1) returns the inverse of a modulo n when
gcd(a, n) = 1; the openssl backend of accumulator-common is not under
src/.  Computed through the extended Euclid coefficient. -/
def invMod (a n : Nat) : Nat :=
  (Nat.gcdA a n % (n : Int)).toNat

/-- Signed-exponent modular exponentiation.  Modelled from the spec:
mod_exp of the BigInt abstraction interprets a negative exponent as first
inverting the base modulo n (section 4.1 and 9); the openssl backend of
accumulator-common is not under src/. -/
def modExpInt (b : Nat) (e : Int) (n : Nat) : Nat :=
  if 0 ≤ e then b ^ e.toNat % n else invMod b n ^ (-e).toNat % n

/-- The result of the extended Euclid algorithm
(accumulator-common/src/bigint/mod.rs). -/
structure GcdResult where
  value : Nat
  a : Int
  b : Int
deriving DecidableEq

/-- Bezout coefficients.  Modelled from the spec: extended_gcd(a, b)
returns (g, x, y) with g = a.x + b.y, g nonnegative and x, y signed
(section 4.1); the openssl backend of accumulator-common is not under
src/.  Computed through Nat.gcdA and Nat.gcdB, which satisfy exactly
that contract. -/
def bezouts_coefficients (s x : Nat) : GcdResult :=
  { value := Nat.gcd s x, a := Nat.gcdA s x, b := Nat.gcdB s x }

/-- The closed error kind set of accumulator-common/src/error.rs. -/
inductive AccumulatorErrorKind
  | InvalidType
  | DuplicateValueSupplied
  | InvalidMemberSupplied
  | SerializationError
deriving DecidableEq

/-- Outcome of a deserialization: ok, a returned error, or a Rust panic
(an out-of-bounds slice index or a failed assert). -/
inductive DeserOutcome (α : Type)
  | panicked
  | error
  | ok (a : α)
deriving DecidableEq

/-- The slice data[a..b]: panics (none) unless a <= b <= data.len(). -/
def extract (data : List Nat) (a b : Nat) : Option (List Nat) :=
  if a ≤ b ∧ b ≤ data.length then some ((data.drop a).take (b - a)) else none

/-- The open-ended slice data[a..]. -/
def extractFrom (data : List Nat) (a : Nat) : Option (List Nat) :=
  if a ≤ data.length then some (data.drop a) else none

/-- Fixed-width left-zero-padded serialization b2fa of both crates; the
source asserts expected_size >= len, so too-large values panic (none). -/
def b2fa (b : Nat) (expectedSize : Nat) : Option (List Nat) :=
  let bt := toBytesBE b
  if bt.length ≤ expectedSize then
    some (List.replicate (expectedSize - bt.length) 0 ++ bt)
  else none

/-- The accumulator state (g, M, n, V), shared field-for-field by
rsa/src/accumulator.rs and by the accumulator of the accumulator-rsa
crate as used in its witness and proof modules. -/
structure Accumulator where
  generator : Nat
  members : Finset Nat
  modulus : Nat
  value : Nat
deriving DecidableEq

namespace Rsa

/-- Accumulator::insert of rsa/src/accumulator.rs: hash the value to a
prime, no-op when already present, otherwise extend the member set and
raise the value to the new prime.  The deterministic map hash_to_prime
is passed as h2p. -/
def Accumulator.insert (h2p : List Nat → Nat) (A : Accumulator)
    (value : List Nat) : Accumulator :=
  let p := h2p value
  if p ∈ A.members then A
  else
    { generator := A.generator
      members := Insert.insert p A.members
      modulus := A.modulus
      value := powMod A.value p A.modulus }

/-- Accumulator::insert_mut of rsa/src/accumulator.rs, the in-place
variant, embedded as a function from the old state to the new state. -/
def Accumulator.insert_mut (h2p : List Nat → Nat) (A : Accumulator)
    (value : List Nat) : Accumulator :=
  let p := h2p value
  if p ∈ A.members then A
  else
    { A with
      members := Insert.insert p A.members
      value := powMod A.value p A.modulus }

/-- The loop of hash_to_prime (rsa/src/hash.rs) with the counter i made
explicit: the input is the message with the 8-byte big-endian counter
appended (the source rewrites the counter bytes in place, which is the
same as re-appending them), blake is the external Blake2b-512 digest and
strongCheck the external Baillie-PSW check.  Fuel bounds the search; the
source loops without bound. -/
def hashToPrimeAux (blake : List Nat → List Nat) (strongCheck : Nat → Bool)
    (m : List Nat) : Nat → Nat → Option Nat
  | 0, _ => none
  | fuel + 1, i =>
    let input := m ++ toBytes8BE i
    let hash := blake input
    let hash2 := hash.set 63 ((hash.getD 63 0) ||| 1)
    let num := fromBytesBE (hash2.drop 32)
    if strongCheck num then some num
    else hashToPrimeAux blake strongCheck m fuel (i + 1)

/-- hash_to_prime of rsa/src/hash.rs: starts the counter at 1, forces the
low bit of the 64-byte digest, keeps the low 32 bytes and retries until
the probable-prime check passes. -/
def hashToPrime (blake : List Nat → List Nat) (strongCheck : Nat → Bool)
    (fuel : Nat) (m : List Nat) : Option Nat :=
  hashToPrimeAux blake strongCheck m fuel 1

/-- Reading member_count members of MEMBER_SIZE bytes each, the loop of
TryFrom for Accumulator in rsa/src/accumulator.rs. -/
def readMembers (data : List Nat) : Nat → Nat → DeserOutcome (Finset Nat)
  | _, 0 => .ok ∅
  | offset, count + 1 =>
    match extract data offset (offset + MEMBER_SIZE) with
    | none => .panicked
    | some bytes =>
      match readMembers data (offset + MEMBER_SIZE) count with
      | .ok ms => .ok (Insert.insert (fromBytesBE bytes) ms)
      | .error => .error
      | .panicked => .panicked

/-- TryFrom for Accumulator in rsa/src/accumulator.rs: rejects only
inputs shorter than MIN_BYTES = 5 FACTOR_SIZE + 4, then slices the three
fields, reads the 4-byte member count and loops over the members; slices
past the end of the input panic. -/
def Accumulator.tryFrom (data : List Nat) : DeserOutcome Accumulator :=
  if data.length < 5 * FACTOR_SIZE + 4 then .error
  else
    match extract data 0 FACTOR_SIZE,
          extract data FACTOR_SIZE (3 * FACTOR_SIZE),
          extract data (3 * FACTOR_SIZE) (5 * FACTOR_SIZE),
          extract data (5 * FACTOR_SIZE) (5 * FACTOR_SIZE + 4) with
    | some g, some v, some n, some cnt =>
      match readMembers data (5 * FACTOR_SIZE + 4) (fromBytesBE cnt) with
      | .ok ms =>
        .ok { generator := fromBytesBE g, members := ms,
              modulus := fromBytesBE n, value := fromBytesBE v }
      | .error => .error
      | .panicked => .panicked
    | _, _, _, _ => .panicked

/-- The membership witness of rsa/src/witness.rs: the field w with
w ^ x = V mod n. -/
structure MembershipWitness where
  w : Nat
  x : Nat
deriving DecidableEq

/-- The membership proof record of rsa/src/memproof.rs. -/
structure MembershipProof where
  witness : Nat
  z : Nat
  q : Nat
  r : Nat
deriving DecidableEq

/-- MembershipProof::new of rsa/src/memproof.rs.  The source computes
q1 by mod_exp of witness.w with the variable q, which at that point is
still the zero-initialized BigNum (the quotient sits in the variable
whole); the embedding mirrors that: q1 = w ^ 0 mod n.  The crate
hash_to_prime is abstracted as h2p and Blake2b as blake, both
deterministic maps applied to the same transcript by prover and
verifier. -/
def MembershipProof.new (h2p blake : List Nat → Nat)
    (wit : MembershipWitness) (A : Accumulator) (nonce : List Nat) :
    MembershipProof :=
  let n := A.modulus
  let z := powMod A.generator wit.x n
  let data := toBytesBE A.generator ++ toBytesBE n ++ toBytesBE A.value
    ++ toBytesBE wit.w ++ toBytesBE z ++ nonce
  let l := h2p data
  let x := blake (data ++ toBytesBE l)
  let whole := wit.x / l
  let r := wit.x % l
  let q1 := powMod wit.w 0 n
  let q2 := powMod A.generator (x * whole) n
  let q := q1 * q2 % n
  { witness := wit.w, z := z, q := q, r := r }

/-- MembershipProof::verify of rsa/src/memproof.rs: recomputes l and the
Fiat-Shamir challenge from the same transcript and checks
Q^l u^r g^(alpha r) = v z^alpha modulo n. -/
def MembershipProof.verify (h2p blake : List Nat → Nat)
    (self : MembershipProof) (A : Accumulator) (nonce : List Nat) : Bool :=
  let n := A.modulus
  let data := toBytesBE A.generator ++ toBytesBE n ++ toBytesBE A.value
    ++ toBytesBE self.witness ++ toBytesBE self.z ++ nonce
  let l := h2p data
  let x := blake (data ++ toBytesBE l)
  let p1 := powMod self.q l n
  let p2 := powMod self.witness self.r n
  let p3 := powMod A.generator (x * self.r) n
  let left := p3 * (p1 * p2 % n) % n
  let right := powMod self.z x n * A.value % n
  left == right

end Rsa

namespace ARsa

/-- The membership witness (u, x) of accumulator-rsa/src/witness.rs. -/
structure MembershipWitness where
  u : Nat
  x : Nat
deriving DecidableEq

/-- MembershipWitness::new_prime of accumulator-rsa/src/witness.rs:
error InvalidMemberSupplied when x is not a member, otherwise
u = g ^ (product of the other members) mod n. -/
def MembershipWitness.new_prime (A : Accumulator) (x : Nat) :
    Except AccumulatorErrorKind MembershipWitness :=
  if x ∈ A.members then
    let exp := (A.members.filter (· ≠ x)).prod id
    .ok { u := powMod A.generator exp A.modulus, x := x }
  else .error .InvalidMemberSupplied

/-- MembershipWitness::new of accumulator-rsa/src/witness.rs: hash the
element to a prime, then new_prime. -/
def MembershipWitness.new (h2p : List Nat → Nat) (A : Accumulator)
    (e : List Nat) : Except AccumulatorErrorKind MembershipWitness :=
  MembershipWitness.new_prime A (h2p e)

/-- MembershipWitness::with_prime_and_secret_key of
accumulator-rsa/src/witness.rs: when x is not a member it returns the
witness (V, x) without any error; otherwise the exponent is the product
of the other members reduced modulo the totient (the parallel fold with
Field.mul over the totient equals the product modulo the totient for any
totient of a real key).  The totient value of the secret key is passed
directly; key.rs of accumulator-rsa is not under src/ and the spec gives
totient() = (p - 1)(q - 1). -/
def MembershipWitness.with_prime_and_secret_key (A : Accumulator)
    (totient : Nat) (x : Nat) : MembershipWitness :=
  if x ∈ A.members then
    let exp := (A.members.filter (· ≠ x)).prod id % totient
    { u := powMod A.generator exp A.modulus, x := x }
  else { u := A.value, x := x }

/-- The non-membership witness of accumulator-rsa/src/nonwitness.rs:
the signed Bezout coefficient a, the pre-exponentiated b = g ^ b mod n,
and the hashed prime x. -/
structure NonMembershipWitness where
  a : Int
  b : Nat
  x : Nat
deriving DecidableEq

/-- NonMembershipWitness::new_prime of accumulator-rsa/src/nonwitness.rs:
error InvalidMemberSupplied when x is a member, otherwise take the Bezout
coefficients of (product of members, x) and store (a, g ^ b mod n, x). -/
def NonMembershipWitness.new_prime (A : Accumulator) (x : Nat) :
    Except AccumulatorErrorKind NonMembershipWitness :=
  if x ∈ A.members then .error .InvalidMemberSupplied
  else
    let s := A.members.prod id
    let g := bezouts_coefficients s x
    .ok { a := g.a, b := modExpInt A.generator g.b A.modulus, x := x }

/-- NonMembershipWitness::new of accumulator-rsa/src/nonwitness.rs. -/
def NonMembershipWitness.new (h2p : List Nat → Nat) (A : Accumulator)
    (e : List Nat) : Except AccumulatorErrorKind NonMembershipWitness :=
  NonMembershipWitness.new_prime A (h2p e)

/-- The (u, z, Q, r) record shared by Poke2Proof (accumulator-rsa lib.rs)
and MembershipProof (accumulator-rsa memproof.rs). -/
structure Poke2Proof where
  u : Nat
  z : Nat
  q : Nat
  r : Nat
deriving DecidableEq

/-- The PoKE2 prover equations with the transcript base gB an explicit
argument; Poke2Proof::new instantiates gB with generator ^ nonce mod n
while MembershipProof::new instantiates it with the raw generator.
Exponents are taken nonnegative, which covers the membership
specialization this development compares. -/
def Poke2Proof.newBase (h2p blake : List Nat → Nat) (xIn u a gB n : Nat)
    (nonce : List Nat) : Poke2Proof :=
  let z := powMod gB xIn n
  let data := toBytesBE gB ++ toBytesBE n ++ toBytesBE a
    ++ toBytesBE u ++ toBytesBE z ++ nonce
  let l := h2p data
  let x := blake (data ++ toBytesBE l)
  let whole := xIn / l
  let r := xIn % l
  let q1 := powMod u whole n
  let q2 := powMod gB (x * whole) n
  { u := u, z := z, q := q1 * q2 % n, r := r }

/-- Poke2Proof::new of accumulator-rsa/src/lib.rs: derives the base
g = generator ^ nonce mod n, z = g ^ x, the prime challenge l and the
Fiat-Shamir scalar from the transcript, then Q = u ^ (x / l) by
g ^ (alpha (x / l)) and r = x mod l. -/
def Poke2Proof.new (h2p blake : List Nat → Nat) (xIn u a : Nat)
    (A : Accumulator) (nonce : List Nat) : Poke2Proof :=
  Poke2Proof.newBase h2p blake xIn u a
    (powMod A.generator (fromBytesBE nonce) A.modulus) A.modulus nonce

/-- The PoKE2 verifier equations with the transcript base gB and the
claimed value w explicit: checks Q^l u^r gB^(alpha r) = w z^alpha
modulo n. -/
def Poke2Proof.verifyBase (h2p blake : List Nat → Nat)
    (self : Poke2Proof) (w gB n : Nat) (nonce : List Nat) : Bool :=
  let data := toBytesBE gB ++ toBytesBE n ++ toBytesBE w
    ++ toBytesBE self.u ++ toBytesBE self.z ++ nonce
  let l := h2p data
  let x := blake (data ++ toBytesBE l)
  let p1 := powMod self.q l n
  let p2 := powMod self.u self.r n
  let p3 := powMod gB (x * self.r) n
  let left := p1 * (p2 * p3 % n) % n
  let right := w * powMod self.z x n % n
  left == right

/-- Poke2Proof::verify of accumulator-rsa/src/lib.rs: recomputes
g = generator ^ nonce mod n and checks against w = accumulator value. -/
def Poke2Proof.verify (h2p blake : List Nat → Nat) (self : Poke2Proof)
    (A : Accumulator) (nonce : List Nat) : Bool :=
  Poke2Proof.verifyBase h2p blake self A.value
    (powMod A.generator (fromBytesBE nonce) A.modulus) A.modulus nonce

/-- The membership proof record of accumulator-rsa/src/memproof.rs. -/
structure MembershipProof where
  u : Nat
  z : Nat
  q : Nat
  r : Nat
deriving DecidableEq

/-- MembershipProof::new of accumulator-rsa/src/memproof.rs: z is
generator ^ witness.x mod n (the raw generator, with no nonce
exponentiation) and the transcript also starts from the raw generator;
otherwise the PoKE2 prover equations with u = witness.u and
w = accumulator value. -/
def MembershipProof.new (h2p blake : List Nat → Nat)
    (witness : MembershipWitness) (A : Accumulator) (nonce : List Nat) :
    MembershipProof :=
  let n := A.modulus
  let z := powMod A.generator witness.x n
  let data := toBytesBE A.generator ++ toBytesBE n ++ toBytesBE A.value
    ++ toBytesBE witness.u ++ toBytesBE z ++ nonce
  let l := h2p data
  let x := blake (data ++ toBytesBE l)
  let whole := witness.x / l
  let r := witness.x % l
  let q1 := powMod witness.u whole n
  let q2 := powMod A.generator (x * whole) n
  { u := witness.u, z := z, q := q1 * q2 % n, r := r }

/-- MembershipProof::verify of accumulator-rsa/src/memproof.rs: checks
Q^l u^r g^(alpha r) = V z^alpha modulo n with the raw generator as
transcript base. -/
def MembershipProof.verify (h2p blake : List Nat → Nat)
    (self : MembershipProof) (A : Accumulator) (nonce : List Nat) : Bool :=
  let n := A.modulus
  let data := toBytesBE A.generator ++ toBytesBE n ++ toBytesBE A.value
    ++ toBytesBE self.u ++ toBytesBE self.z ++ nonce
  let l := h2p data
  let x := blake (data ++ toBytesBE l)
  let p1 := powMod self.q l n
  let p2 := powMod self.u self.r n
  let p3 := powMod A.generator (x * self.r) n
  let left := p1 * (p2 * p3 % n) % n
  let right := A.value * powMod self.z x n % n
  left == right

/-- MembershipProof::to_bytes of accumulator-rsa/src/memproof.rs:
u, z, Q at 2 FACTOR_SIZE each and r at MEMBER_SIZE, 800 bytes in all. -/
def MembershipProof.to_bytes (self : MembershipProof) :
    Option (List Nat) := do
  let a ← b2fa self.u (2 * FACTOR_SIZE)
  let b ← b2fa self.z (2 * FACTOR_SIZE)
  let c ← b2fa self.q (2 * FACTOR_SIZE)
  let d ← b2fa self.r MEMBER_SIZE
  pure (a ++ b ++ c ++ d)

/-- TryFrom for MembershipProof in accumulator-rsa/src/memproof.rs: the
length test compares against 3 FACTOR_SIZE + MEMBER_SIZE, after which
the fields are sliced at 2 FACTOR_SIZE each up to 6 FACTOR_SIZE; slices
past the end of the input panic. -/
def MembershipProof.tryFrom (data : List Nat) :
    DeserOutcome MembershipProof :=
  if data.length ≠ 3 * FACTOR_SIZE + MEMBER_SIZE then .error
  else
    match extract data 0 (2 * FACTOR_SIZE),
          extract data (2 * FACTOR_SIZE) (4 * FACTOR_SIZE),
          extract data (4 * FACTOR_SIZE) (6 * FACTOR_SIZE),
          extractFrom data (6 * FACTOR_SIZE) with
    | some a, some b, some c, some d =>
      .ok { u := fromBytesBE a, z := fromBytesBE b,
            q := fromBytesBE c, r := fromBytesBE d }
    | _, _, _, _ => .panicked

end ARsa

/-! Concrete fixtures.  The hash oracles are instantiated with constant
maps; 3 is a possible value of hash_to_prime (the code forces only
oddness and the probable-prime check, not a lower bound, see the C5
theorems), and the Fiat-Shamir scalar is a plain digest value. -/

/-- A constant stand-in for the deterministic hash_to_prime map. -/
def hashConst3 : List Nat → Nat := fun _ => 3

/-- A constant stand-in for the Blake2b Fiat-Shamir scalar. -/
def blakeConst1 : List Nat → Nat := fun _ => 1

/-- A small accumulator over n = 35 with generator 2, member set 3 and
value 2 ^ 3 mod 35 = 8, satisfying invariant I1. -/
def acc35 : Accumulator :=
  { generator := 2, members := {3}, modulus := 35, value := 8 }

/-- An empty accumulator over n = 35: value equals the generator. -/
def accEmpty35 : Accumulator :=
  { generator := 2, members := ∅, modulus := 35, value := 2 }

/-- An accumulator over n = 35 with member set 7 and
value 2 ^ 7 mod 35 = 23, satisfying invariant I1. -/
def acc35m7 : Accumulator :=
  { generator := 2, members := {7}, modulus := 35, value := 23 }

/-- The valid membership witness for the member 7 of acc35m7 in the rsa
crate: 2 ^ 7 = 23 mod 35. -/
def witC1 : Rsa.MembershipWitness := { w := 2, x := 7 }

/-- The membership witness for the member 3 of acc35 in the
accumulator-rsa crate: 2 ^ 3 = 8 mod 35. -/
def witC8 : ARsa.MembershipWitness := { u := 2, x := 3 }

/-- An arbitrary membership proof used to exercise serialization. -/
def memProofOne : ARsa.MembershipProof := { u := 1, z := 1, q := 1, r := 1 }

/-- A constant stand-in for hash_to_prime mapping everything to 5. -/
def hashConst5 : List Nat → Nat := fun _ => 5

/-- The non-membership witness that new builds for the non-member prime
5 over acc35: the Bezout coefficients of (3, 5) with the second one
pre-exponentiated. -/
def w4 : ARsa.NonMembershipWitness :=
  { a := Nat.gcdA 3 5, b := modExpInt 2 (Nat.gcdB 3 5) 35, x := 5 }

/-- A valid 64-byte digest oracle whose low 32 bytes encode the number
3; a 512-bit hash can produce this output. -/
def blakeSmall : List Nat → List Nat := fun _ => List.replicate 63 0 ++ [3]

/-- The external Baillie-PSW probable-prime check modelled as exact
primality: Baillie-PSW accepts every true prime, so any behavior it
shows on primes is realizable. -/
def strongCheckPrime : Nat → Bool := fun n => decide (Nat.Prime n)

/-- Unfolding lemma for Accumulator::insert. -/
theorem Rsa.Accumulator.insert_eq (h2p : List Nat → Nat) (A : Accumulator)
    (e : List Nat) :
    Rsa.Accumulator.insert h2p A e =
      if h2p e ∈ A.members then A
      else
        { generator := A.generator
          members := Insert.insert (h2p e) A.members
          modulus := A.modulus
          value := powMod A.value (h2p e) A.modulus } := rfl

/-- Unfolding lemma for Accumulator::insert_mut. -/
theorem Rsa.Accumulator.insert_mut_eq (h2p : List Nat → Nat)
    (A : Accumulator) (e : List Nat) :
    Rsa.Accumulator.insert_mut h2p A e =
      if h2p e ∈ A.members then A
      else
        { A with
          members := Insert.insert (h2p e) A.members
          value := powMod A.value (h2p e) A.modulus } := rfl

/-- C3.  Under invariant I1, the membership witness built for an element
whose hashed prime is a member satisfies u ^ x = V mod n: the witness
exponent is the product of the members without x, so raising it to x
restores the full member product in the exponent of g. -/
theorem claim_C3_membership_witness_correct
    (h2p : List Nat → Nat) (A : Accumulator) (e : List Nat)
    (hI1 : A.value = powMod A.generator (A.members.prod id) A.modulus)
    (hx : h2p e ∈ A.members)
    (w : ARsa.MembershipWitness)
    (hw : ARsa.MembershipWitness.new h2p A e = Except.ok w) :
    powMod w.u w.x A.modulus = A.value := by
  unfold ARsa.MembershipWitness.new ARsa.MembershipWitness.new_prime at hw
  rw [if_pos hx] at hw
  simp only [Except.ok.injEq] at hw
  subst hw
  rw [hI1]
  unfold powMod
  rw [← Nat.pow_mod, ← pow_mul]
  have hprod : (A.members.filter (· ≠ h2p e)).prod id * h2p e =
      A.members.prod id := by
    rw [Finset.filter_ne', mul_comm]
    exact Finset.mul_prod_erase A.members id hx
  rw [hprod]

/-- C3 witness: the statement at acc35 and the member whose hashed prime
is 3; the witness is (2, 3) with 2 ^ 3 = 8 = V mod 35. -/
theorem claim_C3_membership_witness_correct_witness :
    (acc35.value = powMod acc35.generator (acc35.members.prod id) acc35.modulus) ∧
    (hashConst3 [] ∈ acc35.members) ∧
    powMod witC8.u witC8.x acc35.modulus = acc35.value :=
  ⟨by decide, by decide,
    claim_C3_membership_witness_correct hashConst3 acc35 []
      (by decide) (by decide) witC8 rfl⟩

/-- fromBytesBE of a byte string with one byte appended. -/
theorem fromBytesBE_append_singleton (l : List Nat) (b : Nat) :
    fromBytesBE (l ++ [b]) = fromBytesBE l * 256 + b := by
  unfold fromBytesBE
  rw [List.foldl_append]
  rfl

/-- Bound for the byte fold: starting from a, the result stays below
(a + 1) times 256 to the length. -/
theorem foldlBytes_lt (l : List Nat) :
    ∀ a : Nat, (∀ b ∈ l, b < 256) →
      List.foldl (fun a b => a * 256 + b) a l <
        (a + 1) * 256 ^ l.length := by
  induction l with
  | nil => intro a _; simp [Nat.lt_succ_self a]
  | cons c tl ih =>
    intro a h
    have hc : c < 256 := h c (List.mem_cons_self c tl)
    have htl : ∀ b ∈ tl, b < 256 := fun b hb => h b (List.mem_cons_of_mem c hb)
    have h1 := ih (a * 256 + c) htl
    have h2 : (a * 256 + c + 1) * 256 ^ tl.length ≤
        (a + 1) * 256 ^ (tl.length + 1) := by
      have h3 : a * 256 + c + 1 ≤ (a + 1) * 256 := by nlinarith
      calc (a * 256 + c + 1) * 256 ^ tl.length
          ≤ ((a + 1) * 256) * 256 ^ tl.length := Nat.mul_le_mul_right _ h3
        _ = (a + 1) * 256 ^ (tl.length + 1) := by ring
    simp only [List.foldl_cons, List.length_cons]
    exact lt_of_lt_of_le h1 h2

/-- A byte string of bytes below 256 denotes a number below 256 to the
length. -/
theorem fromBytesBE_lt (l : List Nat) (h : ∀ b ∈ l, b < 256) :
    fromBytesBE l < 256 ^ l.length := by
  have h1 := foldlBytes_lt l 0 h
  simpa [fromBytesBE] using h1

/-- The hash_to_prime loop, at any counter and fuel, only returns odd
numbers below 2 ^ 256 that pass the probable-prime check, provided the
digest oracle emits 64 valid bytes. -/
theorem hashToPrimeAux_spec (blake : List Nat → List Nat)
    (strongCheck : Nat → Bool) (m : List Nat)
    (hlen : ∀ s, (blake s).length = 64)
    (hval : ∀ s, ∀ b ∈ blake s, b < 256) :
    ∀ (fuel i x : Nat),
      Rsa.hashToPrimeAux blake strongCheck m fuel i = some x →
      x % 2 = 1 ∧ x < 2 ^ 256 ∧ strongCheck x = true := by
  intro fuel
  induction fuel with
  | zero => intro i x h; simp [Rsa.hashToPrimeAux] at h
  | succ n ih =>
    intro i x h
    simp only [Rsa.hashToPrimeAux] at h
    split at h
    case isFalse hc => exact ih (i + 1) x h
    case isTrue hc =>
      rw [Option.some.injEq] at h
      subst h
      set hash := blake (m ++ toBytes8BE i) with hhash
      set v := hash.getD 63 0 ||| 1 with hv
      have hL : hash.length = 64 := hlen _
      have hld : ((hash.set 63 v).drop 32).length = 32 := by
        simp [hL]
      have hne : (hash.set 63 v).drop 32 ≠ [] := by
        intro hnil
        rw [hnil] at hld
        simp at hld
      have h63 : (63 : Nat) < hash.length := by omega
      have hwd : hash.getD 63 0 = hash[63] := by
        rw [List.getD_eq_getElem?_getD, List.getElem?_eq_getElem h63]
        rfl
      have hvlt : v < 256 := by
        have hb63 : hash[63] < 256 := hval _ _ (List.getElem_mem h63)
        have hv8 : hash.getD 63 0 ||| 1 < 2 ^ 8 :=
          Nat.or_lt_two_pow (by rw [hwd]; simpa using hb63) (by norm_num)
        have h256 : (2 : Nat) ^ 8 = 256 := by norm_num
        rw [hv, ← h256]
        exact hv8
      have hv2 : v % 2 = 1 := by
        have h1 : v.testBit 0 = true := by
          rw [hv]
          simp [Nat.testBit_or]
        rw [Nat.testBit_zero] at h1
        exact of_decide_eq_true h1
      have hlast : ((hash.set 63 v).drop 32).getLast hne = v := by
        rw [List.getLast_eq_getElem]
        simp only [hld]
        rw [List.getElem_drop]
        have h32 : (32 : Nat) + (32 - 1) = 63 := by norm_num
        simp only [h32]
        rw [List.getElem_set_self]
      have hdecomp := List.dropLast_append_getLast hne
      constructor
      · conv_lhs => rw [← hdecomp]
        rw [fromBytesBE_append_singleton, hlast]
        omega
      constructor
      · have hmem : ∀ b ∈ (hash.set 63 v).drop 32, b < 256 := by
          intro b hb
          rcases List.mem_or_eq_of_mem_set (List.mem_of_mem_drop hb)
            with h1 | h1
          · exact hval _ b h1
          · rw [h1]; exact hvlt
        have hlt2 := fromBytesBE_lt _ hmem
        rw [hld] at hlt2
        calc fromBytesBE ((hash.set 63 v).drop 32) < 256 ^ 32 := hlt2
          _ = 2 ^ 256 := by norm_num
      · exact hc

/-- The arithmetic core of the PoKE2 check: the prover equations satisfy
the verifier equation whenever u ^ x = V modulo n. -/
theorem memproof_check_eq (n u x V g l a : Nat)
    (hu : u ^ x % n = V % n) :
    ((u ^ (x / l) % n) * (g ^ (a * (x / l)) % n) % n) ^ l % n *
      ((u ^ (x % l) % n) * (g ^ (a * (x % l)) % n) % n) % n =
    V * ((g ^ x % n) ^ a % n) % n := by
  have hx : l * (x / l) + x % l = x := Nat.div_add_mod x l
  apply (ZMod.natCast_eq_natCast_iff' _ _ _).mp
  have huz : ((u : ZMod n)) ^ x = (V : ZMod n) := by
    have := (ZMod.natCast_eq_natCast_iff' (u ^ x) V n).mpr hu
    push_cast at this
    exact this
  push_cast [ZMod.natCast_mod]
  rw [← huz]
  conv_rhs => rw [← hx]
  ring

/-- Completeness of the accumulator-rsa membership proof: a freshly
built proof for a witness with u ^ x = V modulo n verifies against the
unchanged accumulator and the same nonce, for every pair of hash
oracles.  This is the accumulator-rsa half of the round-trip property;
the rsa crate half fails, see the C1 theorem. -/
theorem membership_proof_completeness (h2p blake : List Nat → Nat)
    (wit : ARsa.MembershipWitness) (A : Accumulator) (nonce : List Nat)
    (hwit : wit.u ^ wit.x % A.modulus = A.value % A.modulus) :
    ARsa.MembershipProof.verify h2p blake
      (ARsa.MembershipProof.new h2p blake wit A nonce) A nonce = true := by
  simp only [ARsa.MembershipProof.new, ARsa.MembershipProof.verify, powMod]
  rw [beq_iff_eq]
  exact memproof_check_eq A.modulus wit.u wit.x A.value A.generator _ _ hwit

/-- C5 (amended).  Whenever hash_to_prime terminates, its value is odd,
below 2 ^ 256 and passes the probable-prime check; the code forces only
the low bit of the digest, so no lower bound 2 ^ 255 is guaranteed. -/
theorem claim_C5_hash_to_prime_image
    (blake : List Nat → List Nat) (strongCheck : Nat → Bool)
    (fuel : Nat) (m : List Nat) (x : Nat)
    (hlen : ∀ s, (blake s).length = 64)
    (hval : ∀ s, ∀ b ∈ blake s, b < 256)
    (h : Rsa.hashToPrime blake strongCheck fuel m = some x) :
    x % 2 = 1 ∧ x < 2 ^ 256 ∧ strongCheck x = true :=
  hashToPrimeAux_spec blake strongCheck m hlen hval fuel 1 x h

/-- C5 witness: the amended statement at the concrete 64-byte digest
oracle whose low bytes encode 3. -/
theorem claim_C5_hash_to_prime_image_witness :
    3 % 2 = 1 ∧ 3 < 2 ^ 256 ∧ strongCheckPrime 3 = true :=
  claim_C5_hash_to_prime_image blakeSmall strongCheckPrime 1 [] 3
    (fun _ => rfl)
    (by
      intro s b hb
      simp only [blakeSmall, List.mem_append, List.mem_replicate,
        List.mem_singleton] at hb
      rcases hb with ⟨_, rfl⟩ | rfl <;> norm_num)
    (by decide)

/-- C5 counterexample: the claim as stated is false, because the image
is not confined to the interval from 2 ^ 255: under a digest whose low
32 bytes encode the prime 3 (a possible 512-bit hash output, since the
code only forces the low bit), hash_to_prime returns 3, which is far
below 2 ^ 255. -/
theorem claim_C5_counterexample :
    (∀ s, (blakeSmall s).length = 64) ∧
    Rsa.hashToPrime blakeSmall strongCheckPrime 1 [] = some 3 ∧
    ¬ (2 ^ 255 ≤ 3) := by
  refine ⟨fun _ => rfl, by decide, by norm_num⟩

/-- Reducing modulo n preserves coprimality with n. -/
theorem coprime_mod_left (a n : Nat) (h : Nat.Coprime a n) :
    Nat.Coprime (a % n) n := by
  unfold Nat.Coprime at *
  rw [← Nat.gcd_rec, Nat.gcd_comm]
  exact h

/-- The cast of invMod b n into ZMod n is the inverse of the unit of b. -/
theorem invMod_cast {n : Nat} (hn : 0 < n) (b : Nat) (hb : Nat.Coprime b n) :
    ((invMod b n : Nat) : ZMod n) =
      (((ZMod.unitOfCoprime b hb)⁻¹ : (ZMod n)ˣ) : ZMod n) := by
  have hb1 : Nat.gcd b n = 1 := hb
  have hgcd : (1 : Int) = b * Nat.gcdA b n + n * Nat.gcdB b n := by
    have h2 := Nat.gcd_eq_gcd_ab b n
    rw [hb1] at h2
    exact_mod_cast h2
  have hmul : (b : ZMod n) * ((Nat.gcdA b n : Int) : ZMod n) = 1 := by
    have h3 := congrArg (fun z : Int => ((z : ZMod n))) hgcd
    push_cast at h3
    rw [ZMod.natCast_self] at h3
    simpa using h3.symm
  have h0 : (0 : Int) ≤ Nat.gcdA b n % (n : Int) :=
    Int.emod_nonneg _ (by exact_mod_cast hn.ne')
  have hcast : ((invMod b n : Nat) : ZMod n) =
      ((Nat.gcdA b n : Int) : ZMod n) := by
    unfold invMod
    rw [← Int.cast_natCast (R := ZMod n), Int.toNat_of_nonneg h0,
      ZMod.intCast_mod]
  rw [hcast]
  calc ((Nat.gcdA b n : Int) : ZMod n)
      = (((ZMod.unitOfCoprime b hb)⁻¹ : (ZMod n)ˣ) : ZMod n) *
        (((ZMod.unitOfCoprime b hb : (ZMod n)ˣ) : ZMod n) *
          ((Nat.gcdA b n : Int) : ZMod n)) := by
        rw [← mul_assoc, Units.inv_mul, one_mul]
    _ = (((ZMod.unitOfCoprime b hb)⁻¹ : (ZMod n)ˣ) : ZMod n) := by
        rw [ZMod.coe_unitOfCoprime, hmul, mul_one]

/-- The cast of signed-exponent modular exponentiation into ZMod n is
the integer power of the unit of the base. -/
theorem modExpInt_cast {n : Nat} (hn : 0 < n) (b : Nat)
    (hb : Nat.Coprime b n) (e : Int) :
    ((modExpInt b e n : Nat) : ZMod n) =
      (((ZMod.unitOfCoprime b hb) ^ e : (ZMod n)ˣ) : ZMod n) := by
  unfold modExpInt
  split
  case isTrue h =>
    have he : ((e.toNat : Int)) = e := by omega
    rw [ZMod.natCast_mod]
    push_cast
    rw [← ZMod.coe_unitOfCoprime b hb, ← Units.val_pow_eq_pow_val,
      ← zpow_natCast, he]
  case isFalse h =>
    have he : (-(((-e).toNat : Int))) = e := by omega
    rw [ZMod.natCast_mod]
    push_cast
    rw [invMod_cast hn b hb, ← Units.val_pow_eq_pow_val, inv_pow,
      ← zpow_natCast, ← zpow_neg, he]

/-- C4.  Under invariant I1, with a generator invertible modulo n and an
element whose hashed prime x is prime and outside the member set of
primes, the non-membership witness (a, bhat, x) built by new_prime
satisfies V ^ a bhat ^ x = g mod n: a and b are Bezout coefficients of
the member product s and x, so in the unit group the product is
g ^ (s a + b x) = g. -/
theorem claim_C4_nonmembership_witness_correct
    (h2p : List Nat → Nat) (A : Accumulator) (e : List Nat)
    (hI1 : A.value = powMod A.generator (A.members.prod id) A.modulus)
    (hgen : Nat.Coprime A.generator A.modulus)
    (hlt : A.generator < A.modulus)
    (hx : h2p e ∉ A.members)
    (hxp : Nat.Prime (h2p e))
    (hmp : ∀ y ∈ A.members, Nat.Prime y)
    (w : ARsa.NonMembershipWitness)
    (hw : ARsa.NonMembershipWitness.new h2p A e = Except.ok w) :
    modExpInt A.value w.a A.modulus * w.b ^ w.x % A.modulus =
      A.generator := by
  have hn : 0 < A.modulus := lt_of_le_of_lt (Nat.zero_le _) hlt
  unfold ARsa.NonMembershipWitness.new ARsa.NonMembershipWitness.new_prime
    at hw
  rw [if_neg hx] at hw
  simp only [Except.ok.injEq] at hw
  subst hw
  simp only [bezouts_coefficients]
  have hsx : Nat.Coprime (A.members.prod id) (h2p e) := by
    apply Nat.Coprime.prod_left
    intro y hy
    exact (Nat.coprime_primes (hmp y hy) hxp).mpr
      (fun hEq => hx (hEq ▸ hy))
  have hbez : ((A.members.prod id : Nat) : Int) *
        Nat.gcdA (A.members.prod id) (h2p e) +
      (h2p e : Int) * Nat.gcdB (A.members.prod id) (h2p e) = 1 := by
    have h2 := Nat.gcd_eq_gcd_ab (A.members.prod id) (h2p e)
    have h1 : Nat.gcd (A.members.prod id) (h2p e) = 1 := hsx
    rw [h1] at h2
    exact_mod_cast h2.symm
  have hV : Nat.Coprime A.value A.modulus := by
    rw [hI1]
    exact coprime_mod_left _ _ (Nat.Coprime.pow_left _ hgen)
  have key : modExpInt A.value (Nat.gcdA (A.members.prod id) (h2p e))
        A.modulus *
      (modExpInt A.generator (Nat.gcdB (A.members.prod id) (h2p e))
        A.modulus) ^ (h2p e) ≡ A.generator [MOD A.modulus] := by
    apply (ZMod.natCast_eq_natCast_iff _ _ _).mp
    push_cast
    rw [modExpInt_cast hn A.value hV, modExpInt_cast hn A.generator hgen]
    have hUV : ZMod.unitOfCoprime A.value hV =
        (ZMod.unitOfCoprime A.generator hgen) ^ (A.members.prod id) := by
      apply Units.ext
      rw [ZMod.coe_unitOfCoprime, Units.val_pow_eq_pow_val,
        ZMod.coe_unitOfCoprime, hI1]
      unfold powMod
      rw [ZMod.natCast_mod]
      push_cast
      rfl
    rw [hUV, ← Units.val_pow_eq_pow_val, ← Units.val_mul,
      ← ZMod.coe_unitOfCoprime A.generator hgen]
    congr 1
    rw [← zpow_natCast (ZMod.unitOfCoprime A.generator hgen)
        (A.members.prod id), ← zpow_mul, ← zpow_natCast
        ((ZMod.unitOfCoprime A.generator hgen) ^
          (Nat.gcdB (A.members.prod id) (h2p e))) (h2p e),
      ← zpow_mul, ← zpow_add]
    have hexp : ((A.members.prod id : Nat) : Int) *
          Nat.gcdA (A.members.prod id) (h2p e) +
        Nat.gcdB (A.members.prod id) (h2p e) * (h2p e : Int) = 1 := by
      linarith [hbez]
    rw [hexp, zpow_one]
  conv_rhs => rw [← Nat.mod_eq_of_lt hlt]
  exact key

/-- C4 witness: the statement at acc35, which satisfies I1 with prime
member 3 and generator 2 coprime to 35, and the non-member prime 5. -/
theorem claim_C4_nonmembership_witness_correct_witness :
    (5 ∉ acc35.members) ∧
    modExpInt acc35.value w4.a acc35.modulus * w4.b ^ w4.x %
      acc35.modulus = acc35.generator :=
  ⟨by decide,
    claim_C4_nonmembership_witness_correct hashConst5 acc35 []
      (by decide) (by decide) (by decide) (by decide)
      (show Nat.Prime 5 by norm_num)
      (by
        intro y hy
        simp only [acc35, Finset.mem_singleton] at hy
        subst hy
        norm_num)
      w4 rfl⟩

/-- C1.  The claim quantifies over every freshly built witness and proof
of the repository, including MembershipProof of rsa/src/memproof.rs.
There the prover exponentiates u by the zero-initialized variable q
instead of the quotient whole, so a proof for a perfectly valid witness
(here u = 2, x = 7 with u ^ x = V mod n) fails to verify whenever the
hash-derived challenge l is at most x: the code contradicts the stated
round-trip property. -/
theorem claim_C1_rsa_memproof_verify_fails :
    powMod witC1.w witC1.x acc35m7.modulus = acc35m7.value ∧
    Rsa.MembershipProof.verify hashConst3 blakeConst1
      (Rsa.MembershipProof.new hashConst3 blakeConst1 witC1 acc35m7 [])
      acc35m7 [] = false := by
  constructor
  · rfl
  · rfl

/-- C2.  Serialization round-trip fails for the membership proof of
accumulator-rsa: to_bytes emits 6 FACTOR_SIZE + MEMBER_SIZE = 800 bytes
(as the crate test itself asserts), while TryFrom accepts only
3 FACTOR_SIZE + MEMBER_SIZE = 416 bytes, so the deserializer rejects the
serializer's own output with SerializationError. -/
theorem claim_C2_memproof_roundtrip_fails :
    (ARsa.MembershipProof.to_bytes memProofOne).isSome = true ∧
    ((ARsa.MembershipProof.to_bytes memProofOne).getD []).length = 800 ∧
    ARsa.MembershipProof.tryFrom
      ((ARsa.MembershipProof.to_bytes memProofOne).getD []) =
      DeserOutcome.error := by
  refine ⟨?_, ?_, ?_⟩ <;> decide

/-- C6.  Deserialization can panic instead of returning an error: a
416-byte input passes the length test of TryFrom for MembershipProof and
then the slice of bytes 256 to 512 overruns the input; a 644-byte
accumulator input declaring one member makes the member slice overrun
likewise (the accumulator length test is only a lower bound). -/
theorem claim_C6_deserialize_panics :
    ARsa.MembershipProof.tryFrom (List.replicate 416 0) =
      DeserOutcome.panicked ∧
    Rsa.Accumulator.tryFrom (List.replicate 640 0 ++ [0, 0, 0, 1]) =
      DeserOutcome.panicked := by
  constructor
  · decide
  · decide

/-- C7 (amended).  For an element whose hashed prime is not a member,
the public construction new_prime fails with InvalidMemberSupplied, but
the secret-key form with_prime_and_secret_key cannot fail: it returns
the degenerate witness (accumulator value, x) instead of an error. -/
theorem claim_C7_public_fails_secret_returns
    (A : Accumulator) (totient x : Nat) (h : x ∉ A.members) :
    ARsa.MembershipWitness.new_prime A x =
      Except.error AccumulatorErrorKind.InvalidMemberSupplied ∧
    ARsa.MembershipWitness.with_prime_and_secret_key A totient x =
      { u := A.value, x := x } := by
  constructor
  · unfold ARsa.MembershipWitness.new_prime
    rw [if_neg h]
  · unfold ARsa.MembershipWitness.with_prime_and_secret_key
    rw [if_neg h]

/-- C7 witness: the amended statement at the concrete accumulator acc35,
totient 24 and non-member 5. -/
theorem claim_C7_public_fails_secret_returns_witness :
    (5 ∉ acc35.members) ∧
    ARsa.MembershipWitness.with_prime_and_secret_key acc35 24 5 =
      { u := acc35.value, x := 5 } :=
  ⟨by decide, (claim_C7_public_fails_secret_returns acc35 24 5 (by decide)).2⟩

/-- C7 counterexample: the claim as stated is false, because the
secret-key form returns a witness rather than failing: at acc35 with
non-member 5 it returns the witness (8, 5). -/
theorem claim_C7_counterexample :
    (5 ∉ acc35.members) ∧
    ARsa.MembershipWitness.with_prime_and_secret_key acc35 24 5 =
      { u := 8, x := 5 } := by
  constructor
  · decide
  · rfl

/-- C8 counterexample: the membership prover does not derive the base
g ^ nonce: with nonce byte 2 over acc35, its z is g ^ x = 8 while the
generic PoKE2 prover specialized to the same witness produces
z = (g ^ nonce) ^ x = 29, so the two tuples differ. -/
theorem claim_C8_counterexample :
    (ARsa.MembershipProof.new hashConst3 blakeConst1 witC8 acc35 [2]).z ≠
    (ARsa.Poke2Proof.new hashConst3 blakeConst1 witC8.x witC8.u
      acc35.value acc35 [2]).z := by
  decide

/-- C8 (amended).  The membership proof is the PoKE2 proof with the
transcript base taken to be the raw generator instead of
generator ^ nonce (the nonce still enters the hashed transcript): the
prover tuples coincide field for field and the verifiers agree, and the
generic PoKE2 pair is the same equations at base generator ^ nonce. -/
theorem claim_C8_memproof_is_poke2_at_raw_generator
    (h2p blake : List Nat → Nat) (wit : ARsa.MembershipWitness)
    (A : Accumulator) (nonce : List Nat) (mp : ARsa.MembershipProof) :
    (ARsa.MembershipProof.new h2p blake wit A nonce =
      (fun p : ARsa.Poke2Proof =>
        ({ u := p.u, z := p.z, q := p.q, r := p.r } : ARsa.MembershipProof))
        (ARsa.Poke2Proof.newBase h2p blake wit.x wit.u A.value
          A.generator A.modulus nonce)) ∧
    (ARsa.MembershipProof.verify h2p blake mp A nonce =
      ARsa.Poke2Proof.verifyBase h2p blake
        { u := mp.u, z := mp.z, q := mp.q, r := mp.r }
        A.value A.generator A.modulus nonce) ∧
    (ARsa.Poke2Proof.new h2p blake wit.x wit.u A.value A nonce =
      ARsa.Poke2Proof.newBase h2p blake wit.x wit.u A.value
        (powMod A.generator (fromBytesBE nonce) A.modulus) A.modulus nonce) := by
  exact ⟨rfl, rfl, rfl⟩

/-- C9 counterexample: when the hashed prime of the element is already a
member, inserting twice leaves the member count unchanged, so the member
set does not grow by one.  The accumulator is reached by inserting the
same element once into an empty accumulator. -/
theorem claim_C9_counterexample :
    (Rsa.Accumulator.insert hashConst3
        (Rsa.Accumulator.insert hashConst3
          (Rsa.Accumulator.insert hashConst3 accEmpty35 []) []) []).members.card ≠
    (Rsa.Accumulator.insert hashConst3 accEmpty35 []).members.card + 1 := by
  decide

/-- C9 (amended).  Inserting twice gives exactly the accumulator of
inserting once (value included); the member set grows by exactly one
element when the hashed prime was fresh, and by zero when it was already
present - never by two. -/
theorem claim_C9_insert_idempotent
    (h2p : List Nat → Nat) (A : Accumulator) (e : List Nat) :
    Rsa.Accumulator.insert h2p (Rsa.Accumulator.insert h2p A e) e =
      Rsa.Accumulator.insert h2p A e ∧
    (h2p e ∉ A.members →
      (Rsa.Accumulator.insert h2p (Rsa.Accumulator.insert h2p A e) e).members.card =
        A.members.card + 1) ∧
    (h2p e ∈ A.members →
      (Rsa.Accumulator.insert h2p (Rsa.Accumulator.insert h2p A e) e).members.card =
        A.members.card) := by
  have hmem : h2p e ∈ (Rsa.Accumulator.insert h2p A e).members := by
    rw [Rsa.Accumulator.insert_eq]
    split
    · assumption
    · exact Finset.mem_insert_self _ _
  have hidem : Rsa.Accumulator.insert h2p (Rsa.Accumulator.insert h2p A e) e =
      Rsa.Accumulator.insert h2p A e := by
    rw [Rsa.Accumulator.insert_eq h2p (Rsa.Accumulator.insert h2p A e) e,
      if_pos hmem]
  refine ⟨hidem, ?_, ?_⟩
  · intro hfresh
    rw [hidem, Rsa.Accumulator.insert_eq, if_neg hfresh]
    exact Finset.card_insert_of_not_mem hfresh
  · intro hstale
    rw [hidem, Rsa.Accumulator.insert_eq, if_pos hstale]

/-- C9 witness: the amended statement at the empty accumulator and the
fresh hashed prime 3. -/
theorem claim_C9_insert_idempotent_witness :
    (hashConst3 [] ∉ accEmpty35.members) ∧
    (Rsa.Accumulator.insert hashConst3
      (Rsa.Accumulator.insert hashConst3 accEmpty35 []) []).members.card =
      accEmpty35.members.card + 1 :=
  ⟨by decide,
    (claim_C9_insert_idempotent hashConst3 accEmpty35 []).2.1 (by decide)⟩

/-- C10.  Insertion, functional and in-place, leaves the generator and
the modulus untouched: only the member set and the value can change. -/
theorem claim_C10_insert_preserves_generator_modulus
    (h2p : List Nat → Nat) (A : Accumulator) (e : List Nat) :
    (Rsa.Accumulator.insert h2p A e).generator = A.generator ∧
    (Rsa.Accumulator.insert h2p A e).modulus = A.modulus ∧
    (Rsa.Accumulator.insert_mut h2p A e).generator = A.generator ∧
    (Rsa.Accumulator.insert_mut h2p A e).modulus = A.modulus := by
  rw [Rsa.Accumulator.insert_eq, Rsa.Accumulator.insert_mut_eq]
  by_cases h : h2p e ∈ A.members <;> simp [h]

end AccumulatorRs
